import Mathlib

/-!
Verification development for the GReX T0 first-stage pipeline.

Shallow embedding of the data model and the operations of the pipeline:
the Stokes-I computation and downsampler (src/common.rs, src/processing.rs),
the voltage dump ring (src/dumps.rs), the reordering stage
(src/processing.rs), the capture decode / sort-split stage (src/capture.rs)
and the pulse-injection startup (src/injection.rs).

Machine integers are embedded as `Nat`/`Int` (i8/i16/u16 ranges are tracked
explicitly where a claim is about overflow); the f32/f64 arithmetic of the
Stokes path is modelled exactly over `ℚ`.
-/

namespace GrexT0

/-- Number of frequency channels, `CHANNELS` in src/common.rs (set by gateware). -/
def CHANNELS : Nat := 2048

/-- Channel sample: the complex value of one frequency channel. Source:
`Channel(Complex<i8>)` in src/common.rs. Components are carried as unbounded
integers; the i8 range is tracked by `i8range` in the claims that need it. -/
structure Channel where
  re : Int
  im : Int
deriving DecidableEq

/-- Range of an i8 value. -/
def i8range (x : Int) : Prop := -128 ≤ x ∧ x ≤ 127

instance (x : Int) : Decidable (i8range x) := by
  unfold i8range; infer_instance

/-- Zero channel, the `Default` impl for `Channel` in src/common.rs. -/
def Channel.zero : Channel := ⟨0, 0⟩

/-- Mathematical value computed by `Channel::abs_squared` (src/common.rs:33-37):
widen re and im to i16 and form `r*r + i*i`, cast to u16. For i8 inputs this
value is below 2^16, so the release-mode wrap-and-cast returns exactly
`re*re + im*im`; whether the i16 intermediate stays in range is examined by the
claim-7 theorems. -/
def Channel.abs_squared (c : Channel) : Int := c.re * c.re + c.im * c.im

/-- One polarization, `[Channel; CHANNELS]` in src/common.rs. -/
def Channels := Fin CHANNELS → Channel

/-- All-zero polarization array. -/
def Channels.zero : Channels := fun _ => Channel.zero

/-- Stokes vector `[f32; CHANNELS]`; the f32 arithmetic is modelled exactly
over the rationals. -/
def Stokes := Fin CHANNELS → ℚ

/-- Function `stokes_i` from src/common.rs:43-49: per channel the code computes
`f32::from(a.abs_squared() + b.abs_squared()) / f32::from(u16::MAX)`. The
addition `a.abs_squared() + b.abs_squared()` is performed on `u16`, so in
release builds it wraps modulo 2^16 (in debug builds it panics instead of
wrapping); the model takes the sum modulo 65536 accordingly, and the claim-7
theorems delimit the region where no wrap occurs. The result is the (possibly
wrapped) 16-bit sum divided by 65535. -/
def stokes_i (a b : Channels) : Stokes :=
  fun i => ((((a i).abs_squared + (b i).abs_squared) % 65536 : Int) : ℚ) / 65535

/-- Payload from src/common.rs:51-58: packet index (u64) plus the two
polarization arrays and a validity flag. -/
structure Payload where
  count : Nat
  pol_a : Channels
  pol_b : Channels
  valid : Bool

/-- Value of `Payload::default()` (src/common.rs:68-77). -/
def Payload.default : Payload :=
  { count := 0, pol_a := Channels.zero, pol_b := Channels.zero, valid := false }

/-- Method `Payload::stokes_i` (src/common.rs:84-86), delegating to `stokes_i`. -/
def Payload.stokes_i (p : Payload) : Stokes := GrexT0.stokes_i p.pol_a p.pol_b

/-- Payload with a given count and otherwise default fields (used to feed the
ordering and ring stages in scenarios). -/
def plOf (c : Nat) : Payload := { Payload.default with count := c }

/-- State of `DumpRing` (src/dumps.rs:19-23). -/
structure DumpRing where
  capacity : Nat
  container : List Payload
  write_index : Nat

/-- Constructor `DumpRing::new` (src/dumps.rs:32-39): capacity `2^size_power`,
container filled with default payloads, write index 0. -/
def DumpRing.new (size_power : Nat) : DumpRing :=
  { capacity := 2 ^ size_power
    container := List.replicate (2 ^ size_power) Payload.default
    write_index := 0 }

/-- Method `DumpRing::next_push` (src/dumps.rs:26-30) combined with the caller
cloning the payload through the returned reference (src/dumps.rs:163-167): the
payload is written at the old `write_index`, and the index advances by
`(write_index + 1) % (capacity - 1)`. Note that the source divides by
`capacity - 1`, not by `capacity`. -/
def DumpRing.next_push (r : DumpRing) (p : Payload) : DumpRing :=
  { r with
    container := r.container.set r.write_index p
    write_index := (r.write_index + 1) % (r.capacity - 1) }

/-- Push a sequence of payloads in order. -/
def DumpRing.pushAll (r : DumpRing) (ps : List Payload) : DumpRing :=
  ps.foldl DumpRing.next_push r

/-- Traversal loop of `DumpRing::dump` (src/dumps.rs:100-110): starting from
`write_index`, read the slot, advance `read_idx = (read_idx + 1) % (capacity - 1)`
and stop once `read_idx` is back at `write_index` (a do-while loop). The fuel
argument only bounds the recursion; `capacity` iterations always suffice. -/
def DumpRing.dumpLoop (r : DumpRing) : Nat → Nat → List Payload
  | 0, _ => []
  | fuel + 1, read_idx =>
    let pl := r.container.getD read_idx Payload.default
    let next_idx := (read_idx + 1) % (r.capacity - 1)
    if next_idx = r.write_index then [pl]
    else pl :: r.dumpLoop fuel next_idx

/-- Order in which `DumpRing::dump` emits the stored payloads into the output
file (both traversal loops of the source visit slots in this same order). -/
def DumpRing.dumpOrder (r : DumpRing) : List Payload :=
  r.dumpLoop r.capacity r.write_index

/-- Constant `MONITOR_SPEC_DOWNSAMPLE_FACTOR` (src/processing.rs:10). -/
def MONITOR_SPEC_DOWNSAMPLE_FACTOR : Nat := 305180

/-- Mutable state of `downsample_task` (src/processing.rs:24-28). -/
structure DsState where
  stokes_avg : Stokes
  stokes_idx : Nat
  monitor_avg : Fin CHANNELS → ℚ
  monitor_idx : Nat

/-- Initial downsampler state: all buffers and indices zero. -/
def DsState.init : DsState :=
  { stokes_avg := fun _ => 0, stokes_idx := 0
    monitor_avg := fun _ => 0, monitor_idx := 0 }

/-- One loop iteration of `downsample_task` (src/processing.rs:29-68) on one
payload: accumulate Stokes-I into `stokes_avg`; when `stokes_idx` has reached
`downsample_factor - 1`, average, feed the monitoring average, emit the window
and zero the accumulator; finally advance `stokes_idx` modulo the factor.
Returns the new state, the Stokes window sent on `stokes_send` (if any) and the
monitoring spectrum sent on `avg_snd` (if any). -/
def downsample_step (D : Nat) (s : DsState) (p : Payload) :
    DsState × Option Stokes × Option (Fin CHANNELS → ℚ) :=
  let acc : Stokes := fun i => s.stokes_avg i + p.stokes_i i
  if s.stokes_idx = D - 1 then
    let avg : Stokes := fun i => acc i / (D : ℚ)
    let mon : Fin CHANNELS → ℚ := fun i => s.monitor_avg i + avg i
    let monEmit : Option (Fin CHANNELS → ℚ) :=
      if s.monitor_idx = MONITOR_SPEC_DOWNSAMPLE_FACTOR - 1 then
        some (fun i => mon i / (MONITOR_SPEC_DOWNSAMPLE_FACTOR : ℚ))
      else none
    let mon2 : Fin CHANNELS → ℚ :=
      if s.monitor_idx = MONITOR_SPEC_DOWNSAMPLE_FACTOR - 1 then fun _ => 0 else mon
    ({ stokes_avg := fun _ => 0
       stokes_idx := (s.stokes_idx + 1) % D
       monitor_avg := mon2
       monitor_idx := (s.monitor_idx + 1) % MONITOR_SPEC_DOWNSAMPLE_FACTOR },
     some avg, monEmit)
  else
    ({ s with stokes_avg := acc, stokes_idx := (s.stokes_idx + 1) % D },
     none, none)

/-- Run `downsample_task` over a finite input sequence, collecting the emitted
Stokes windows and monitoring spectra. -/
def downsample_run (D : Nat) : List Payload → DsState →
    DsState × List Stokes × List (Fin CHANNELS → ℚ)
  | [], s => (s, [], [])
  | p :: rest, s =>
    ((downsample_run D rest (downsample_step D s p).1).1,
     (downsample_step D s p).2.1.toList
       ++ (downsample_run D rest (downsample_step D s p).1).2.1,
     (downsample_step D s p).2.2.toList
       ++ (downsample_run D rest (downsample_step D s p).1).2.2)

/-- Elementwise sum of the Stokes-I vectors of a list of payloads. -/
def blockSum (ps : List Payload) : Fin CHANNELS → ℚ :=
  fun i => (ps.map (fun p => p.stokes_i i)).sum

/-- Elementwise mean of the Stokes-I vectors of a list of payloads over a
window of nominal length D. -/
def blockAvg (D : Nat) (ps : List Payload) : Stokes :=
  fun i => blockSum ps i / (D : ℚ)

/-- Test payload of the downsample-correctness scenario: every channel of
`pol_a` is `(k + 1, 0)` and `pol_b` is zero. -/
def scenarioPayload (k : Nat) : Payload :=
  { count := k
    pol_a := fun _ => ⟨(k : Int) + 1, 0⟩
    pol_b := Channels.zero
    valid := false }

/-- Eight payloads of the downsample-correctness scenario. -/
def scenarioInput : List Payload := (List.range 8).map scenarioPayload

/-- Constant `PACKET_REODER_BUF_SIZE` (src/processing.rs:12). -/
def PACKET_REODER_BUF_SIZE : Nat := 16384

/-- Association-list lookup, modelling the key search of `HashMap::get` and
`HashMap::remove` used by `ReorderBuf` (src/processing.rs). -/
def alookup : List (Nat × Nat) → Nat → Option Nat
  | [], _ => none
  | e :: rest, k => if e.1 = k then some e.2 else alookup rest k

/-- Remove the entry of a key, modelling `HashMap::remove`. -/
def aerase : List (Nat × Nat) → Nat → List (Nat × Nat)
  | [], _ => []
  | e :: rest, k => if e.1 = k then rest else e :: aerase rest k

/-- Insert or overwrite an entry, modelling `HashMap::insert`. -/
def ainsert (l : List (Nat × Nat)) (k v : Nat) : List (Nat × Nat) :=
  (k, v) :: aerase l k

/-- State of `ReorderBuf` (src/processing.rs:71-76): a fixed pool of payload
slots, the stack of free slot indices, the map from payload count to occupied
slot, and the next expected count. -/
structure ReorderBuf where
  buf : List Payload
  free_idxs : List Nat
  queued : List (Nat × Nat)
  next_needed : Nat

/-- Constructor `ReorderBuf::new` (src/processing.rs:79-86). -/
def ReorderBuf.new : ReorderBuf :=
  { buf := List.replicate PACKET_REODER_BUF_SIZE Payload.default
    free_idxs := List.range PACKET_REODER_BUF_SIZE
    queued := []
    next_needed := 0 }

/-- Method `ReorderBuf::push` (src/processing.rs:89-97): pop a free index from
the end of the vector (`Vec::pop`), fail with `none` when the pool is full. -/
def ReorderBuf.push (rb : ReorderBuf) (p : Payload) : Option ReorderBuf :=
  match rb.free_idxs.getLast? with
  | none => none
  | some idx =>
    some { rb with
           free_idxs := rb.free_idxs.dropLast
           queued := ainsert rb.queued p.count idx
           buf := rb.buf.set idx p }

/-- Method `ReorderBuf::reset` (src/processing.rs:110-113): clear the map and
refill the free list without touching the payload memory. -/
def ReorderBuf.reset (rb : ReorderBuf) : ReorderBuf :=
  { rb with queued := [], free_idxs := List.range PACKET_REODER_BUF_SIZE }

/-- Drain loop of `reorder_task` (the `Iterator` impl at
src/processing.rs:116-129 driven by the loop at src/processing.rs:183-186):
repeatedly pop the payload registered under `next_needed`, recycling its slot.
The fuel only bounds the recursion; `queued.length` iterations always reach the
`none` case the source stops on. -/
def ReorderBuf.drain : ReorderBuf → Nat → ReorderBuf × List Payload
  | rb, 0 => (rb, [])
  | rb, fuel + 1 =>
    match alookup rb.queued rb.next_needed with
    | none => (rb, [])
    | some idx =>
      ((ReorderBuf.drain
          { rb with
            queued := aerase rb.queued rb.next_needed
            free_idxs := rb.free_idxs ++ [idx]
            next_needed := rb.next_needed + 1 } fuel).1,
       rb.buf.getD idx Payload.default ::
         (ReorderBuf.drain
           { rb with
             queued := aerase rb.queued rb.next_needed
             free_idxs := rb.free_idxs ++ [idx]
             next_needed := rb.next_needed + 1 } fuel).2)

/-- Routing part of one loop iteration of `reorder_task`
(src/processing.rs:154-182). The boolean is `first_payload`. A payload matching
`next_needed` (or the very first one) is sent straight through; otherwise it is
pushed into the buffer, and if the buffer is full the state is reset,
`next_needed` becomes `count + 1` and the unpushable payload is sent. Returns
the new flag, the new buffer state and the payloads sent downstream so far. -/
def reorder_route (first : Bool) (rb : ReorderBuf) (p : Payload) :
    Bool × ReorderBuf × List Payload :=
  if first || p.count = rb.next_needed then
    (false, { rb with next_needed := p.count + 1 }, [p])
  else
    match rb.push p with
    | some rb2 => (first, rb2, [])
    | none => (first, { rb.reset with next_needed := p.count + 1 }, [p])

/-- One full loop iteration of `reorder_task`: route the arriving payload as
above, then drain the buffer. -/
def reorder_step (first : Bool) (rb : ReorderBuf) (p : Payload) :
    Bool × ReorderBuf × List Payload :=
  ((reorder_route first rb p).1,
   ((reorder_route first rb p).2.1.drain (reorder_route first rb p).2.1.queued.length).1,
   (reorder_route first rb p).2.2
     ++ ((reorder_route first rb p).2.1.drain
          (reorder_route first rb p).2.1.queued.length).2)

/-- Run `reorder_task` over a finite input sequence, collecting everything sent
downstream. -/
def reorder_run : Bool → ReorderBuf → List Payload →
    Bool × ReorderBuf × List Payload
  | first, rb, [] => (first, rb, [])
  | first, rb, p :: rest =>
    ((reorder_run (reorder_step first rb p).1 (reorder_step first rb p).2.1 rest).1,
     (reorder_run (reorder_step first rb p).1 (reorder_step first rb p).2.1 rest).2.1,
     (reorder_step first rb p).2.2
       ++ (reorder_run (reorder_step first rb p).1 (reorder_step first rb p).2.1 rest).2.2)

/-- Payloads emitted by `reorder_task` from a fresh state on an input
sequence. -/
def reorder_emits (ps : List Payload) : List Payload :=
  (reorder_run true ReorderBuf.new ps).2.2

/-- Size of the packet count header, `TIMESTAMP_SIZE` (src/capture.rs:25). -/
def TIMESTAMP_SIZE : Nat := 8

/-- Bytes of the spectra block, `SPECTRA_SIZE` (src/capture.rs:27). -/
def SPECTRA_SIZE : Nat := 8192

/-- Total UDP payload size, `PAYLOAD_SIZE` (src/capture.rs:29). -/
def PAYLOAD_SIZE : Nat := SPECTRA_SIZE + TIMESTAMP_SIZE

/-- Reinterpret a byte (0..255) as an i8, as `word[j] as i8` does. -/
def toI8 (b : Nat) : Int := if b < 128 then (b : Int) else (b : Int) - 256

/-- Encode an i8 value back to its byte; inverse of `toI8` on i8 values. -/
def toU8 (v : Int) : Nat := (v % 256).toNat

/-- Value of `u64::from_be_bytes(bytes[0..TIMESTAMP_SIZE])` (src/capture.rs:52-56):
the first eight bytes as a big-endian integer. -/
def beCount (B : Nat → Nat) : Nat :=
  B 0 * 256 ^ 7 + B 1 * 256 ^ 6 + B 2 * 256 ^ 5 + B 3 * 256 ^ 4 +
    B 4 * 256 ^ 3 + B 5 * 256 ^ 2 + B 6 * 256 + B 7

/-- Decoder `Payload::from_bytes` (src/capture.rs:40-58). A byte buffer is a
function from position to byte value. The source loops over the 1024
eight-byte words `word i = bytes[8 + 8*i ..]` after the timestamp, setting
`pol_a[2i] = (word[0], word[1])`, `pol_a[2i+1] = (word[4], word[5])`,
`pol_b[2i] = (word[2], word[3])` and `pol_b[2i+1] = (word[6], word[7])`; here
the same assignment is written indexed by the channel `j`, with `i = j / 2`. -/
def Payload.from_bytes (B : Nat → Nat) : Payload :=
  { count := beCount B
    pol_a := fun j =>
      if j.val % 2 = 0 then
        ⟨toI8 (B (8 + 8 * (j.val / 2))), toI8 (B (8 + 8 * (j.val / 2) + 1))⟩
      else
        ⟨toI8 (B (8 + 8 * (j.val / 2) + 4)), toI8 (B (8 + 8 * (j.val / 2) + 5))⟩
    pol_b := fun j =>
      if j.val % 2 = 0 then
        ⟨toI8 (B (8 + 8 * (j.val / 2) + 2)), toI8 (B (8 + 8 * (j.val / 2) + 3))⟩
      else
        ⟨toI8 (B (8 + 8 * (j.val / 2) + 6)), toI8 (B (8 + 8 * (j.val / 2) + 7))⟩
    valid := false }

/-- Modelled from the spec: the `encode` direction of the round-trip property,
"the inverse word-pack: big-endian u64 count followed by 8-byte words
[A_n.re, A_n.im, B_n.re, B_n.im, A_n+1.re, A_n+1.im, B_n+1.re, B_n+1.im]"
(no encoder exists in src/, only the decoder). `encodeByte p i` is byte `i` of
that encoding: for `i < 8` the big-endian digit of `count`, otherwise the
component of word `(i - 8) / 8` selected by `(i - 8) % 8`. -/
def encodeByte (p : Payload) (i : Nat) : Nat :=
  if i < 8 then p.count / 256 ^ (7 - i) % 256
  else
    let q := (i - 8) / 8
    if h : 2 * q + 1 < CHANNELS then
      match (i - 8) % 8 with
      | 0 => toU8 (p.pol_a ⟨2 * q, by omega⟩).re
      | 1 => toU8 (p.pol_a ⟨2 * q, by omega⟩).im
      | 2 => toU8 (p.pol_b ⟨2 * q, by omega⟩).re
      | 3 => toU8 (p.pol_b ⟨2 * q, by omega⟩).im
      | 4 => toU8 (p.pol_a ⟨2 * q + 1, h⟩).re
      | 5 => toU8 (p.pol_a ⟨2 * q + 1, h⟩).im
      | 6 => toU8 (p.pol_b ⟨2 * q + 1, h⟩).re
      | _ => toU8 (p.pol_b ⟨2 * q + 1, h⟩).im
    else 0

/-- Modelled from the spec: full wire encoding of a payload, `PAYLOAD_SIZE`
bytes. -/
def encode (p : Payload) : List Nat :=
  (List.range PAYLOAD_SIZE).map (encodeByte p)

/-- One loop iteration of `sort_split_task` (src/capture.rs:283-312) on one
captured chunk: decode every packet with `Payload::from_bytes` and send the
result onward. The call to `stateful_sort` is commented out in the source
(src/capture.rs:307-308), so `sorted` is just a clone of the decoded payloads
in arrival order. -/
def sort_split_chunk (packets : List (Nat → Nat)) : List Payload :=
  packets.map Payload.from_bytes

/-- Byte buffer whose decoded count is `c` (for `c < 256`): byte 7 carries the
low big-endian digit, all other bytes are zero. -/
def mkCountBytes (c : Nat) : Nat → Nat := fun i => if i = 7 then c else 0

/-- Outcome of the pulse-injection startup. -/
inductive InjectionMode where
  | passthrough
  | active (pulses : List String)
deriving DecidableEq

/-- Startup phase of `pulse_injection_task` (src/injection.rs:33-61), given the
outcome of `read_dir` as an optional list of the directory entries' file
extensions (`none` is a missing directory). A missing directory falls back to
the pass-through loop; an existing directory leads to
`pulse_cycle.next().unwrap()` (src/injection.rs:60) over the cyclic iterator of
the `.dat` entries, which panics - modelled as `Except.error` - when the
directory holds no `.dat` file. -/
def injection_setup (dirListing : Option (List String)) :
    Except String InjectionMode :=
  match dirListing with
  | none => Except.ok InjectionMode.passthrough
  | some entries =>
    let pulses := entries.filter (fun e => e == "dat")
    match pulses.head? with
    | none => Except.error "called unwrap on a None value"
    | some _ => Except.ok (InjectionMode.active pulses)

/-- Pass-through branch of `pulse_injection_task` (src/injection.rs:114-125):
every received payload is forwarded unchanged. -/
def injection_passthrough (ps : List Payload) : List Payload := ps

/-- Well-formedness of a reorder-buffer state, satisfied by `ReorderBuf.new`
and preserved by the task: every map entry points to an in-range slot that
really holds a payload of that count, occupied slots are not on the free list,
no slot is referenced twice, and the free list is duplicate-free and
in-range. -/
def ReorderBuf.WF (rb : ReorderBuf) : Prop :=
  (∀ e ∈ rb.queued,
      (rb.buf.getD e.2 Payload.default).count = e.1
        ∧ e.2 < rb.buf.length ∧ e.2 ∉ rb.free_idxs)
    ∧ (∀ i ∈ rb.free_idxs, i < rb.buf.length)
    ∧ (rb.queued.map Prod.snd).Nodup
    ∧ rb.free_idxs.Nodup

/-- Probe state for the stale-payload property: a fresh reorder buffer whose
expected count has advanced to 3. -/
def staleProbe : ReorderBuf :=
  { buf := List.replicate PACKET_REODER_BUF_SIZE Payload.default
    free_idxs := List.range PACKET_REODER_BUF_SIZE
    queued := []
    next_needed := 3 }

end GrexT0

namespace GrexT0

/-- Helper: getD after replicate is the replicated element. -/
theorem getD_replicate {α : Type} (a : α) : ∀ (n i : Nat),
    (List.replicate n a).getD i a = a := by
  intro n
  induction n with
  | zero => intro i; simp [List.getD]
  | succ m ih =>
    intro i
    cases i with
    | zero => simp [List.replicate, List.getD]
    | succ j => simp only [List.replicate, List.getD_cons_succ]; exact ih j

/-- Helper: setting one index leaves the value read at a different index. -/
theorem getD_set_ne {α : Type} (d x : α) : ∀ (l : List α) (i j : Nat), i ≠ j →
    (l.set i x).getD j d = l.getD j d := by
  intro l
  induction l with
  | nil => intro i j _; simp
  | cons a t ih =>
    intro i j hij
    cases i with
    | zero =>
      cases j with
      | zero => exact absurd rfl hij
      | succ j2 => simp [List.set, List.getD]
    | succ i2 =>
      cases j with
      | zero => simp [List.set, List.getD]
      | succ j2 =>
        have : i2 ≠ j2 := by omega
        simpa [List.set, List.getD] using ih i2 j2 this

/-- Helper: setting an in-range index makes that value readable there. -/
theorem getD_set_eq {α : Type} (d x : α) : ∀ (l : List α) (i : Nat),
    i < l.length → (l.set i x).getD i d = x := by
  intro l
  induction l with
  | nil => intro i h; simp at h
  | cons a t ih =>
    intro i h
    cases i with
    | zero => simp [List.set, List.getD]
    | succ i2 =>
      have : i2 < t.length := by simpa using h
      simpa [List.set, List.getD] using ih i2 this

/-- Helper: one-step unfolding of `downsample_run` on a cons cell. -/
theorem downsample_run_cons (D : Nat) (p : Payload) (rest : List Payload) (s : DsState) :
    downsample_run D (p :: rest) s =
      ((downsample_run D rest (downsample_step D s p).1).1,
       (downsample_step D s p).2.1.toList
         ++ (downsample_run D rest (downsample_step D s p).1).2.1,
       (downsample_step D s p).2.2.toList
         ++ (downsample_run D rest (downsample_step D s p).1).2.2) := rfl

/-- Helper: running the downsampler over a concatenation composes. -/
theorem downsample_run_append (D : Nat) (xs ys : List Payload) : ∀ s,
    downsample_run D (xs ++ ys) s =
      ((downsample_run D ys (downsample_run D xs s).1).1,
       (downsample_run D xs s).2.1 ++ (downsample_run D ys (downsample_run D xs s).1).2.1,
       (downsample_run D xs s).2.2 ++ (downsample_run D ys (downsample_run D xs s).1).2.2) := by
  induction xs with
  | nil => intro s; simp [downsample_run]
  | cons p rest ih =>
    intro s
    show downsample_run D (p :: (rest ++ ys)) s = _
    rw [downsample_run_cons, ih, downsample_run_cons]
    simp [List.append_assoc]

/-- Helper: one full averaging window. Starting from any state whose
`stokes_idx` plus the window length equals the downsample factor, the
downsampler emits exactly one Stokes window - the accumulated sum divided by
the factor - and returns to a zeroed accumulator and index. -/
theorem ds_block (D : Nat) : ∀ (rest : List Payload) (p : Payload) (s : DsState),
    s.stokes_idx + rest.length + 1 = D →
    (downsample_run D (p :: rest) s).2.1
        = [fun i => (s.stokes_avg i + blockSum (p :: rest) i) / (D : ℚ)]
    ∧ (downsample_run D (p :: rest) s).1.stokes_avg = (fun _ => 0)
    ∧ (downsample_run D (p :: rest) s).1.stokes_idx = 0 := by
  intro rest
  induction rest with
  | nil =>
    intro p s hlen
    have hsucc : s.stokes_idx + 1 = D := by simpa using hlen
    have hidx : s.stokes_idx = D - 1 := by omega
    rw [downsample_run_cons]
    simp only [downsample_run, downsample_step, if_pos hidx]
    refine ⟨?_, trivial, ?_⟩
    · simp only [Option.toList_some, List.append_nil]
      congr 1
      funext i
      simp [blockSum]
    · show (s.stokes_idx + 1) % D = 0
      rw [hsucc]
      exact Nat.mod_self D
  | cons q rest2 ih =>
    intro p s hlen
    have hlen' : s.stokes_idx + rest2.length + 2 = D := by simpa using hlen
    have hne : ¬ (s.stokes_idx = D - 1) := by omega
    have hmod : (s.stokes_idx + 1) % D = s.stokes_idx + 1 :=
      Nat.mod_eq_of_lt (by omega)
    have hcall := ih q { s with
      stokes_avg := fun i => s.stokes_avg i + p.stokes_i i
      stokes_idx := (s.stokes_idx + 1) % D } (by simp only [hmod]; omega)
    rw [downsample_run_cons]
    simp only [downsample_step, if_neg hne]
    refine ⟨?_, hcall.2.1, hcall.2.2⟩
    rw [hcall.1]
    simp only [Option.toList_none, List.nil_append]
    congr 1
    funext i
    simp only [blockSum, List.map_cons, List.sum_cons]
    ring

/-- Helper: running the downsampler from a zeroed state over `k` whole windows
emits the `k` per-window elementwise means in order and returns to a zeroed
accumulator and index. -/
theorem ds_blocks (D : Nat) (hD : 0 < D) : ∀ (k : Nat) (ps : List Payload) (s : DsState),
    s.stokes_avg = (fun _ => 0) → s.stokes_idx = 0 → ps.length = k * D →
    (downsample_run D ps s).2.1
        = (List.range k).map (fun j => blockAvg D ((ps.drop (j * D)).take D))
    ∧ (downsample_run D ps s).1.stokes_avg = (fun _ => 0)
    ∧ (downsample_run D ps s).1.stokes_idx = 0 := by
  intro k
  induction k with
  | zero =>
    intro ps s h1 h2 h3
    have hnil : ps = [] := List.length_eq_zero.mp (by simpa using h3)
    subst hnil
    simp [downsample_run, h1, h2]
  | succ k ih =>
    intro ps s h1 h2 h3
    have hlenD : D ≤ ps.length := by
      rw [h3]
      exact Nat.le_mul_of_pos_left D (Nat.succ_pos k)
    have htake : (ps.take D).length = D := by
      rw [List.length_take]
      omega
    obtain ⟨p, rest, hpr⟩ : ∃ p rest, ps.take D = p :: rest := by
      cases hc : ps.take D with
      | nil => rw [hc] at htake; simp at htake; omega
      | cons a t => exact ⟨a, t, rfl⟩
    have hrest : rest.length + 1 = D := by
      have h5 := htake
      rw [hpr] at h5
      simpa using h5
    have hblock := ds_block D rest p s (by omega)
    have hdrop : (ps.drop D).length = k * D := by
      rw [List.length_drop, h3, Nat.succ_mul]
      omega
    have hcall := ih (ps.drop D) (downsample_run D (p :: rest) s).1
      hblock.2.1 hblock.2.2 hdrop
    have hsplit : (p :: rest) ++ ps.drop D = ps := by
      rw [← hpr, List.take_append_drop]
    have hrun := downsample_run_append D (p :: rest) (ps.drop D) s
    rw [hsplit] at hrun
    rw [hrun]
    refine ⟨?_, hcall.2.1, hcall.2.2⟩
    rw [hblock.1, hcall.1]
    rw [List.range_succ_eq_map]
    simp only [List.map_cons, List.map_map, List.cons_append, List.singleton_append]
    congr 1
    · funext i
      rw [congrFun h1 i]
      simp only [Nat.zero_mul, List.drop_zero, hpr, blockAvg]
      ring
    · apply List.map_congr_left
      intro j hj
      simp only [Function.comp_apply]
      rw [List.drop_drop]
      rw [Nat.succ_mul, Nat.add_comm]

/-- Claim C6: feeding the downsampler exactly `k * 2^d` payloads makes it emit
exactly `k` Stokes windows; window `j` is the elementwise mean of the Stokes-I
vectors of inputs `j * 2^d` through `(j+1) * 2^d - 1`; and after every whole
window (every prefix of `j * 2^d` inputs) the accumulator and the index are
back to zero. -/
theorem claim6_downsample_windows (d k : Nat) (ps : List Payload)
    (h : ps.length = k * 2 ^ d) :
    (downsample_run (2 ^ d) ps DsState.init).2.1.length = k
    ∧ (∀ j, j < k →
        ((downsample_run (2 ^ d) ps DsState.init).2.1)[j]? =
          some (blockAvg (2 ^ d) ((ps.drop (j * 2 ^ d)).take (2 ^ d))))
    ∧ (∀ j, j ≤ k →
        (downsample_run (2 ^ d) (ps.take (j * 2 ^ d)) DsState.init).1.stokes_avg
            = (fun _ => 0)
        ∧ (downsample_run (2 ^ d) (ps.take (j * 2 ^ d)) DsState.init).1.stokes_idx
            = 0) := by
  have hD : 0 < 2 ^ d := Nat.pos_pow_of_pos d (by norm_num)
  have hmain := ds_blocks (2 ^ d) hD k ps DsState.init rfl rfl h
  refine ⟨?_, ?_, ?_⟩
  · rw [hmain.1]; simp
  · intro j hj
    rw [hmain.1]
    rw [List.getElem?_map]
    rw [List.getElem?_range hj]
    rfl
  · intro j hj
    have hlen : (ps.take (j * 2 ^ d)).length = j * 2 ^ d := by
      rw [List.length_take, h]
      have h2 : j * 2 ^ d ≤ k * 2 ^ d := Nat.mul_le_mul_right _ hj
      omega
    have hp := ds_blocks (2 ^ d) hD j (ps.take (j * 2 ^ d)) DsState.init rfl rfl hlen
    exact ⟨hp.2.1, hp.2.2⟩

/-- Witness for claim C6 at `d = 0`, `k = 1` on a single default payload. -/
theorem claim6_witness :
    (downsample_run (2 ^ 0) [Payload.default] DsState.init).2.1.length = 1
    ∧ (∀ j, j < 1 →
        ((downsample_run (2 ^ 0) [Payload.default] DsState.init).2.1)[j]? =
          some (blockAvg (2 ^ 0) (([Payload.default].drop (j * 2 ^ 0)).take (2 ^ 0))))
    ∧ (∀ j, j ≤ 1 →
        (downsample_run (2 ^ 0) ([Payload.default].take (j * 2 ^ 0))
            DsState.init).1.stokes_avg = (fun _ => 0)
        ∧ (downsample_run (2 ^ 0) ([Payload.default].take (j * 2 ^ 0))
            DsState.init).1.stokes_idx = 0) :=
  claim6_downsample_windows 0 1 [Payload.default] (by norm_num)

/-- Helper bound: for i8 values not both equal to -128, the sum of squares is
at most 32513 = 128^2 + 127^2. -/
theorem abs_squared_bound (x y : Int) (hx : i8range x) (hy : i8range y)
    (hxy : ¬(x = -128 ∧ y = -128)) : x * x + y * y ≤ 32513 := by
  obtain ⟨hx1, hx2⟩ := hx
  obtain ⟨hy1, hy2⟩ := hy
  rcases Classical.em (x = -128) with hx128 | hx128
  · have hy128 : y ≠ -128 := fun h => hxy ⟨hx128, h⟩
    have hy1' : -127 ≤ y := by omega
    nlinarith [mul_self_nonneg (y + 127), mul_self_nonneg (127 - y)]
  · have hx1' : -127 ≤ x := by omega
    nlinarith [mul_self_nonneg (x + 127), mul_self_nonneg (127 - x),
      mul_self_nonneg (y + 128), mul_self_nonneg (127 - y)]

/-- Claim C1 counterexample: `stokes_i` on a channel with `pol_a = (1, 0)` and
`pol_b = 0` yields `1 / 65535` (the code divides by `u16::MAX`), which differs
from the `1 / 2^14` the claim's normalization demands. -/
theorem claim1_counterexample :
    stokes_i (fun _ => ⟨1, 0⟩) (fun _ => ⟨0, 0⟩) ⟨0, by norm_num [CHANNELS]⟩
      = 1 / 65535
    ∧ ((1 : ℚ) / 65535) ≠ 1 / 2 ^ 14 := by
  constructor
  · norm_num [stokes_i, Channel.abs_squared]
  · norm_num

/-- Claim C1, amended: wherever the 16-bit channel sum does not wrap - that
is, for channels with i8 components of which neither polarization is exactly
(-128, -128); the wrap corner is the subject of claim 7 - `stokes_i` returns
per channel the sum of the two squared magnitudes divided by
`u16::MAX` = 65535 (not `2^14`); and the downsample scenario (D = 4, eight
payloads with `pol_a[k] = (k+1, 0)` and `pol_b = 0`) yields a first averaged
vector whose every channel is `(1 + 4 + 9 + 16) / (4 * 65535)`
= `30 / (4 * 65535)`. -/
theorem claim1_amended (a b : Channels) (i : Fin CHANNELS)
    (hare : i8range (a i).re) (haim : i8range (a i).im)
    (hbre : i8range (b i).re) (hbim : i8range (b i).im)
    (ha : ¬((a i).re = -128 ∧ (a i).im = -128))
    (hb : ¬((b i).re = -128 ∧ (b i).im = -128)) :
    stokes_i a b i = (((a i).abs_squared + (b i).abs_squared : Int) : ℚ) / 65535
    ∧ (downsample_run 4 scenarioInput DsState.init).2.1.length = 2
    ∧ ((downsample_run 4 scenarioInput DsState.init).2.1)[0]?
        = some (fun _ => 30 / (4 * 65535)) := by
  have hmain := ds_blocks 4 (by norm_num) 2 scenarioInput DsState.init rfl rfl
    (by simp [scenarioInput])
  refine ⟨?_, ?_, ?_⟩
  · have hA := abs_squared_bound (a i).re (a i).im hare haim ha
    have hB := abs_squared_bound (b i).re (b i).im hbre hbim hb
    have hA2 : Channel.abs_squared (a i) ≤ 32513 := hA
    have hB2 : Channel.abs_squared (b i) ≤ 32513 := hB
    have hA0 : 0 ≤ Channel.abs_squared (a i) := by
      unfold Channel.abs_squared
      nlinarith [mul_self_nonneg (a i).re, mul_self_nonneg (a i).im]
    have hB0 : 0 ≤ Channel.abs_squared (b i) := by
      unfold Channel.abs_squared
      nlinarith [mul_self_nonneg (b i).re, mul_self_nonneg (b i).im]
    show ((((a i).abs_squared + (b i).abs_squared) % 65536 : Int) : ℚ) / 65535 = _
    rw [Int.emod_eq_of_lt (by omega) (by omega)]
  · rw [hmain.1]; simp
  · rw [hmain.1]
    have h0 : (List.map (fun j => blockAvg 4 (List.take 4 (List.drop (j * 4) scenarioInput)))
        (List.range 2))[0]?
          = some (blockAvg 4 (List.take 4 (List.drop (0 * 4) scenarioInput))) := rfl
    rw [h0]
    have htake : List.take 4 (List.drop (0 * 4) scenarioInput)
        = [scenarioPayload 0, scenarioPayload 1, scenarioPayload 2, scenarioPayload 3] := rfl
    rw [htake]
    congr 1
    funext i2
    show (List.map (fun p => p.stokes_i i2) [scenarioPayload 0, scenarioPayload 1,
        scenarioPayload 2, scenarioPayload 3]).sum / (4 : ℚ) = 30 / (4 * 65535)
    rw [List.map_cons, List.map_cons, List.map_cons, List.map_cons, List.map_nil,
      List.sum_cons, List.sum_cons, List.sum_cons, List.sum_cons, List.sum_nil]
    simp only [Payload.stokes_i, stokes_i, scenarioPayload, Channel.abs_squared,
      Channels.zero, Channel.zero]
    norm_num

/-- Witness for claim C1 (amended) at a channel with `pol_a = (3, 4)` and
`pol_b = (0, 0)`. -/
theorem claim1_witness :
    stokes_i (fun _ => ⟨3, 4⟩) (fun _ => ⟨0, 0⟩) ⟨0, by norm_num [CHANNELS]⟩
        = ((Channel.abs_squared ⟨3, 4⟩ + Channel.abs_squared ⟨0, 0⟩ : Int) : ℚ) / 65535
    ∧ (downsample_run 4 scenarioInput DsState.init).2.1.length = 2
    ∧ ((downsample_run 4 scenarioInput DsState.init).2.1)[0]?
        = some (fun _ => 30 / (4 * 65535)) :=
  claim1_amended (fun _ => ⟨3, 4⟩) (fun _ => ⟨0, 0⟩) ⟨0, by norm_num [CHANNELS]⟩
    (by decide) (by decide) (by decide) (by decide) (by decide) (by decide)

/-- Claim C2, behavior at the failing input: with capacity `N = 4` (v = 2),
pushing payloads with counts 10..15 and dumping emits only the three payloads
13, 14, 15 - not the last four (12, 13, 14, 15) - because both the push and the
dump traversal advance indices modulo `capacity - 1`. -/
theorem claim2_dump_behavior :
    (((DumpRing.new 2).pushAll ([10, 11, 12, 13, 14, 15].map plOf)).dumpOrder.map
        Payload.count) = [13, 14, 15]
    ∧ (((DumpRing.new 2).pushAll ([10, 11, 12, 13, 14, 15].map plOf)).dumpOrder.map
        Payload.count) ≠ [12, 13, 14, 15] := by
  constructor
  · decide
  · decide

/-- Claim C5, behavior at the failing input: `sort_split_task` forwards decoded
payloads in arrival order (its `stateful_sort` call is commented out), so a
chunk arriving with counts 5, 3 is emitted as 5, 3 - a decreasing sequence. -/
theorem claim5_emission_order :
    (sort_split_chunk [mkCountBytes 5, mkCountBytes 3]).map Payload.count = [5, 3]
    ∧ ¬ List.Sorted (· ≤ ·)
        ((sort_split_chunk [mkCountBytes 5, mkCountBytes 3]).map Payload.count) := by
  constructor
  · decide
  · decide

/-- Claim C7 counterexample: at a channel whose real and imaginary parts are
both -128 (a legal i8 pattern), `abs_squared` is 32768, which exceeds
`i16::MAX` = 32767 (the i16 sum `r*r + i*i` overflows), and the per-channel
two-polarization sum is 65536, which exceeds `u16::MAX` = 65535 (the u16
addition inside `stokes_i` wraps). -/
theorem claim7_counterexample :
    ¬ (Channel.abs_squared ⟨-128, -128⟩ ≤ 32767
       ∧ Channel.abs_squared ⟨-128, -128⟩ + Channel.abs_squared ⟨-128, -128⟩ ≤ 65535) := by
  decide

/-- Helper invariant for the dump ring: pushing any sequence never touches the
last slot, because `next_push` keeps `write_index` strictly below
`capacity - 1`. -/
theorem dumpring_pushAll_last_slot (v : Nat) (hv : 1 ≤ v) :
    ∀ (ps : List Payload) (r : DumpRing),
      r.capacity = 2 ^ v → r.container.length = 2 ^ v →
      r.write_index < 2 ^ v - 1 →
      r.container.getD (2 ^ v - 1) Payload.default = Payload.default →
      (r.pushAll ps).container.getD (2 ^ v - 1) Payload.default = Payload.default := by
  have hpow : 1 < 2 ^ v := Nat.one_lt_two_pow_iff.mpr (by omega)
  intro ps
  induction ps with
  | nil => intro r _ _ _ h4; simpa [DumpRing.pushAll] using h4
  | cons p rest ih =>
    intro r h1 h2 h3 h4
    have hstep : r.pushAll (p :: rest) = (r.next_push p).pushAll rest := by
      simp [DumpRing.pushAll]
    rw [hstep]
    apply ih
    · simpa [DumpRing.next_push] using h1
    · simpa [DumpRing.next_push] using h2
    · have : (r.write_index + 1) % (r.capacity - 1) < 2 ^ v - 1 := by
        rw [h1]
        exact Nat.mod_lt _ (by omega)
      simpa [DumpRing.next_push] using this
    · have hne : r.write_index ≠ 2 ^ v - 1 := by omega
      simpa [DumpRing.next_push] using
        (getD_set_ne Payload.default p r.container r.write_index (2 ^ v - 1) hne).trans h4

/-- Claim C3: on any ring freshly created with `DumpRing::new` and any push
sequence, slot `N - 1` is never written (it still holds the default payload),
because `next_push` advances `write_index` by `(write_index + 1) % (capacity - 1)`
rather than modulo `capacity` - so not every slot is eventually written, contrary
to the claim. -/
theorem claim3_slot_never_written (v : Nat) (hv : 1 ≤ v) (ps : List Payload) :
    ((DumpRing.new v).pushAll ps).container.getD (2 ^ v - 1) Payload.default
        = Payload.default
    ∧ ∀ (r : DumpRing) (p : Payload),
        (r.next_push p).write_index = (r.write_index + 1) % (r.capacity - 1) := by
  constructor
  · apply dumpring_pushAll_last_slot v hv ps
    · rfl
    · simp [DumpRing.new]
    · have hpow : 1 < 2 ^ v := Nat.one_lt_two_pow_iff.mpr (by omega)
      simpa [DumpRing.new] using by omega
    · exact getD_replicate Payload.default _ _
  · intro r p; rfl

/-- Witness for claim C3 at `v = 1` with one pushed payload. -/
theorem claim3_witness :
    ((DumpRing.new 1).pushAll [plOf 7]).container.getD (2 ^ 1 - 1) Payload.default
        = Payload.default
    ∧ ∀ (r : DumpRing) (p : Payload),
        (r.next_push p).write_index = (r.write_index + 1) % (r.capacity - 1) :=
  claim3_slot_never_written 1 (by norm_num) [plOf 7]

/-- Claim C7, amended: for all channels whose components are i8 values and
that are not exactly (-128, -128), `abs_squared` stays within `i16::MAX`
(no overflow in the widened i16 sum `r*r + i*i`), the per-channel sum of the
two polarizations' magnitudes stays within `u16::MAX` (no wraparound in the
u16 addition), and `stokes_i` yields exactly that sum divided by 65535. At
(-128, -128) both bounds fail, as `claim7_counterexample` shows. -/
theorem claim7_amended (a b : Channel)
    (hare : i8range a.re) (haim : i8range a.im)
    (hbre : i8range b.re) (hbim : i8range b.im)
    (ha : ¬(a.re = -128 ∧ a.im = -128)) (hb : ¬(b.re = -128 ∧ b.im = -128)) :
    Channel.abs_squared a ≤ 32767
    ∧ Channel.abs_squared b ≤ 32767
    ∧ 0 ≤ Channel.abs_squared a + Channel.abs_squared b
    ∧ Channel.abs_squared a + Channel.abs_squared b ≤ 65535
    ∧ stokes_i (fun _ => a) (fun _ => b) ⟨0, by norm_num [CHANNELS]⟩
        = ((Channel.abs_squared a + Channel.abs_squared b : Int) : ℚ) / 65535 := by
  have hA := abs_squared_bound a.re a.im hare haim ha
  have hB := abs_squared_bound b.re b.im hbre hbim hb
  have hA0 : 0 ≤ Channel.abs_squared a := by
    unfold Channel.abs_squared
    nlinarith [mul_self_nonneg a.re, mul_self_nonneg a.im,
      mul_self_nonneg b.re, mul_self_nonneg b.im]
  have hB0 : 0 ≤ Channel.abs_squared b := by
    unfold Channel.abs_squared
    nlinarith [mul_self_nonneg a.re, mul_self_nonneg a.im,
      mul_self_nonneg b.re, mul_self_nonneg b.im]
  have hA2 : Channel.abs_squared a ≤ 32513 := hA
  have hB2 : Channel.abs_squared b ≤ 32513 := hB
  refine ⟨?_, ?_, by omega, ?_, ?_⟩
  · unfold Channel.abs_squared; omega
  · unfold Channel.abs_squared; omega
  · unfold Channel.abs_squared at *; omega
  · show (((Channel.abs_squared a + Channel.abs_squared b) % 65536 : Int) : ℚ) / 65535 = _
    rw [Int.emod_eq_of_lt (by omega) (by omega)]

/-- Witness for claim C7 (amended) at the extreme admissible channel value
(127, 127) for both polarizations. -/
theorem claim7_witness :
    Channel.abs_squared ⟨127, 127⟩ ≤ 32767
    ∧ Channel.abs_squared ⟨127, 127⟩ ≤ 32767
    ∧ 0 ≤ Channel.abs_squared ⟨127, 127⟩ + Channel.abs_squared ⟨127, 127⟩
    ∧ Channel.abs_squared ⟨127, 127⟩ + Channel.abs_squared ⟨127, 127⟩ ≤ 65535
    ∧ stokes_i (fun _ => ⟨127, 127⟩) (fun _ => ⟨127, 127⟩) ⟨0, by norm_num [CHANNELS]⟩
        = ((Channel.abs_squared ⟨127, 127⟩ + Channel.abs_squared ⟨127, 127⟩ : Int) : ℚ)
            / 65535 :=
  claim7_amended ⟨127, 127⟩ ⟨127, 127⟩ (by decide) (by decide) (by decide) (by decide)
    (by decide) (by decide)

/-- Claim C9, behavior at the failing input: a missing pulse directory indeed
degrades `pulse_injection_task` to an identity pass-through, but a directory
that exists with no `.dat` entry (here: a single `.txt` entry) makes the task
panic on `pulse_cycle.next().unwrap()` instead of passing through. -/
theorem claim9_empty_dir_panics :
    injection_setup none = Except.ok InjectionMode.passthrough
    ∧ (∀ ps : List Payload, injection_passthrough ps = ps)
    ∧ injection_setup (some ["txt"]) = Except.error "called unwrap on a None value" := by
  exact ⟨rfl, fun _ => rfl, rfl⟩


theorem alookup_mem : ∀ (l : List (Nat × Nat)) (k v : Nat),
    alookup l k = some v → (k, v) ∈ l := by
  intro l
  induction l with
  | nil => intro k v h; simp [alookup] at h
  | cons e rest ih =>
    intro k v h
    by_cases he : e.1 = k
    · rw [alookup, if_pos he, Option.some_inj] at h
      rw [← he, ← h]
      exact List.mem_cons_self e rest
    · rw [alookup, if_neg he] at h
      right
      exact ih k v h

theorem aerase_sublist : ∀ (l : List (Nat × Nat)) (k : Nat), (aerase l k).Sublist l := by
  intro l
  induction l with
  | nil => intro k; simp [aerase]
  | cons e rest ih =>
    intro k
    by_cases he : e.1 = k
    · rw [aerase, if_pos he]
      exact (List.sublist_cons_self e rest)
    · rw [aerase, if_neg he]
      exact (ih k).cons₂ e

theorem aerase_subset {l : List (Nat × Nat)} {k : Nat} {e : Nat × Nat}
    (h : e ∈ aerase l k) : e ∈ l :=
  (aerase_sublist l k).subset h

theorem alookup_aerase_ne : ∀ (l : List (Nat × Nat)) (k c : Nat), c ≠ k →
    alookup (aerase l k) c = alookup l c := by
  intro l
  induction l with
  | nil => intro k c _; simp [aerase]
  | cons e rest ih =>
    intro k c hck
    by_cases he : e.1 = k
    · rw [aerase, if_pos he, alookup, if_neg (by omega : ¬ e.1 = c)]
    · rw [aerase, if_neg he]
      by_cases hec : e.1 = c
      · rw [alookup, if_pos hec, alookup, if_pos hec]
      · rw [alookup, if_neg hec, alookup, if_neg hec]
        exact ih k c hck

theorem snd_ne_of_nodup : ∀ (l : List (Nat × Nat)) (k v : Nat),
    (l.map Prod.snd).Nodup → alookup l k = some v →
    ∀ e ∈ aerase l k, e.2 ≠ v := by
  intro l
  induction l with
  | nil => intro k v _ h; simp [alookup] at h
  | cons a rest ih =>
    intro k v hnd hl e he
    rw [List.map_cons, List.nodup_cons] at hnd
    by_cases ha : a.1 = k
    · rw [alookup, if_pos ha, Option.some_inj] at hl
      rw [aerase, if_pos ha] at he
      intro hev
      exact hnd.1 (by rw [hl, ← hev]; exact List.mem_map_of_mem Prod.snd he)
    · rw [alookup, if_neg ha] at hl
      rw [aerase, if_neg ha] at he
      rcases List.mem_cons.mp he with rfl | he2
      · intro hev
        exact hnd.1 (by rw [hev]; exact List.mem_map_of_mem Prod.snd (alookup_mem rest k v hl))
      · exact ih k v hnd.2 hl e he2

theorem drain_none (rb : ReorderBuf) (fuel : Nat)
    (h : alookup rb.queued rb.next_needed = none) : rb.drain fuel = (rb, []) := by
  cases fuel with
  | zero => rfl
  | succ f => rw [ReorderBuf.drain, h]

theorem drain_buf : ∀ (fuel : Nat) (rb : ReorderBuf),
    ((rb.drain fuel).1).buf = rb.buf := by
  intro fuel
  induction fuel with
  | zero => intro rb; rfl
  | succ f ih =>
    intro rb
    rw [ReorderBuf.drain]
    cases h : alookup rb.queued rb.next_needed with
    | none => rfl
    | some idx => exact ih _

theorem WF_drain_step (rb : ReorderBuf) (idx : Nat) (hWF : rb.WF)
    (h : alookup rb.queued rb.next_needed = some idx) :
    ReorderBuf.WF { rb with
      queued := aerase rb.queued rb.next_needed
      free_idxs := rb.free_idxs ++ [idx]
      next_needed := rb.next_needed + 1 } := by
  obtain ⟨h1, h2, h3, h4⟩ := hWF
  have hmem : (rb.next_needed, idx) ∈ rb.queued := alookup_mem _ _ _ h
  have hidx := h1 _ hmem
  refine ⟨?_, ?_, ?_, ?_⟩
  · intro e he
    have he2 := aerase_subset he
    have h1e := h1 e he2
    refine ⟨h1e.1, h1e.2.1, ?_⟩
    intro hmem2
    rcases List.mem_append.mp hmem2 with hin | hin
    · exact h1e.2.2 hin
    · have hei : e.2 = idx := by simpa using hin
      exact snd_ne_of_nodup rb.queued rb.next_needed idx h3 h e he hei
  · intro i hi
    rcases List.mem_append.mp hi with hi | hi
    · exact h2 i hi
    · have hii : i = idx := by simpa using hi
      rw [hii]
      exact hidx.2.1
  · exact ((aerase_sublist _ _).map Prod.snd).nodup h3
  · rw [List.nodup_append]
    refine ⟨h4, List.nodup_singleton idx, ?_⟩
    intro a ha hb
    have hai : a = idx := by simpa using hb
    rw [hai] at ha
    exact hidx.2.2 ha

theorem drain_count_ge : ∀ (fuel : Nat) (rb : ReorderBuf), rb.WF →
    ∀ q ∈ (rb.drain fuel).2, rb.next_needed ≤ q.count := by
  intro fuel
  induction fuel with
  | zero => intro rb _ q hq; simp [ReorderBuf.drain] at hq
  | succ f ih =>
    intro rb hWF q hq
    rw [ReorderBuf.drain] at hq
    cases h : alookup rb.queued rb.next_needed with
    | none => rw [h] at hq; simp at hq
    | some idx =>
      rw [h] at hq
      simp only [List.mem_cons] at hq
      rcases hq with hq | hq
      · have hmem := alookup_mem _ _ _ h
        have hcnt := (hWF.1 _ hmem).1
        rw [hq, hcnt]
      · have hWF2 := WF_drain_step rb idx hWF h
        have hge : rb.next_needed + 1 ≤ q.count := ih _ hWF2 q hq
        omega

theorem drain_alookup_lt : ∀ (fuel : Nat) (rb : ReorderBuf) (c : Nat),
    c < rb.next_needed →
    alookup ((rb.drain fuel).1).queued c = alookup rb.queued c := by
  intro fuel
  induction fuel with
  | zero => intro rb c _; rfl
  | succ f ih =>
    intro rb c hc
    rw [ReorderBuf.drain]
    cases h : alookup rb.queued rb.next_needed with
    | none => rfl
    | some idx =>
      show alookup ((({ rb with
          queued := aerase rb.queued rb.next_needed
          free_idxs := rb.free_idxs ++ [idx]
          next_needed := rb.next_needed + 1 } : ReorderBuf).drain f).1).queued c
            = alookup rb.queued c
      have hrec := ih { rb with
          queued := aerase rb.queued rb.next_needed
          free_idxs := rb.free_idxs ++ [idx]
          next_needed := rb.next_needed + 1 } c (by simp only []; omega)
      rw [hrec]
      exact alookup_aerase_ne rb.queued rb.next_needed c (by omega)

theorem push_some (rb : ReorderBuf) (p : Payload) (idx : Nat)
    (h : rb.free_idxs.getLast? = some idx) :
    rb.push p = some { rb with
      free_idxs := rb.free_idxs.dropLast
      queued := ainsert rb.queued p.count idx
      buf := rb.buf.set idx p } := by
  rw [ReorderBuf.push, h]

theorem getLast_not_mem_dropLast (l : List Nat) (idx : Nat) (hnd : l.Nodup)
    (h : l.getLast? = some idx) : idx ∉ l.dropLast := by
  have hne : l ≠ [] := by
    intro hnil
    rw [hnil] at h
    simp at h
  have hid : l.getLast hne = idx := by
    rw [List.getLast?_eq_getLast l hne, Option.some_inj] at h
    exact h
  have hdec : l.dropLast ++ [l.getLast hne] = l := List.dropLast_append_getLast hne
  rw [← hdec, List.nodup_append] at hnd
  intro hmem
  exact hnd.2.2 hmem (by rw [← hid]; exact List.mem_singleton_self _)

theorem WF_push (rb : ReorderBuf) (p : Payload) (idx : Nat) (hWF : rb.WF)
    (h : rb.free_idxs.getLast? = some idx) :
    ReorderBuf.WF { rb with
      free_idxs := rb.free_idxs.dropLast
      queued := ainsert rb.queued p.count idx
      buf := rb.buf.set idx p } := by
  obtain ⟨h1, h2, h3, h4⟩ := hWF
  have hidxmem : idx ∈ rb.free_idxs := by
    have hne : rb.free_idxs ≠ [] := by
      intro hnil
      rw [hnil] at h
      simp at h
    have hid : rb.free_idxs.getLast hne = idx := by
      rw [List.getLast?_eq_getLast _ hne, Option.some_inj] at h
      exact h
    rw [← hid]
    exact List.getLast_mem hne
  have hidxlen : idx < rb.buf.length := h2 idx hidxmem
  have hdropsub : ∀ a, a ∈ rb.free_idxs.dropLast → a ∈ rb.free_idxs :=
    fun a ha => (List.dropLast_sublist rb.free_idxs).subset ha
  refine ⟨?_, ?_, ?_, ?_⟩
  · intro e he
    rcases List.mem_cons.mp he with rfl | he2
    · refine ⟨?_, ?_, ?_⟩
      · show ((rb.buf.set idx p).getD idx Payload.default).count = p.count
        rw [getD_set_eq Payload.default p rb.buf idx hidxlen]
      · show idx < (rb.buf.set idx p).length
        rw [List.length_set]
        exact hidxlen
      · exact getLast_not_mem_dropLast rb.free_idxs idx h4 h
    · have he3 := aerase_subset he2
      have h1e := h1 e he3
      have hene : e.2 ≠ idx := by
        intro heq
        exact h1e.2.2 (heq ▸ hidxmem)
      refine ⟨?_, ?_, ?_⟩
      · show ((rb.buf.set idx p).getD e.2 Payload.default).count = e.1
        rw [getD_set_ne Payload.default p rb.buf idx e.2 (fun hx => hene hx.symm)]
        exact h1e.1
      · show e.2 < (rb.buf.set idx p).length
        rw [List.length_set]
        exact h1e.2.1
      · intro hmem
        exact h1e.2.2 (hdropsub _ hmem)
  · intro i hi
    show i < (rb.buf.set idx p).length
    rw [List.length_set]
    exact h2 i (hdropsub i hi)
  · show (List.map Prod.snd ((p.count, idx) :: aerase rb.queued p.count)).Nodup
    rw [List.map_cons, List.nodup_cons]
    constructor
    · intro hmem
      obtain ⟨e, he, hesnd⟩ := List.mem_map.mp hmem
      have h1e := h1 e (aerase_subset he)
      exact h1e.2.2 (hesnd ▸ hidxmem)
    · exact ((aerase_sublist _ _).map Prod.snd).nodup h3
  · exact (List.dropLast_sublist rb.free_idxs).nodup h4

theorem reorder_run_nil (f : Bool) (rb : ReorderBuf) :
    reorder_run f rb [] = (f, rb, []) := rfl

theorem reorder_run_cons (f : Bool) (rb : ReorderBuf) (p : Payload) (rest : List Payload) :
    reorder_run f rb (p :: rest) =
      ((reorder_run (reorder_step f rb p).1 (reorder_step f rb p).2.1 rest).1,
       (reorder_run (reorder_step f rb p).1 (reorder_step f rb p).2.1 rest).2.1,
       (reorder_step f rb p).2.2
         ++ (reorder_run (reorder_step f rb p).1 (reorder_step f rb p).2.1 rest).2.2) := rfl

theorem step_pass (first : Bool) (rb : ReorderBuf) (p : Payload)
    (hc : first = true ∨ p.count = rb.next_needed)
    (h2 : alookup rb.queued (p.count + 1) = none) :
    reorder_step first rb p = (false, { rb with next_needed := p.count + 1 }, [p]) := by
  have hroute : reorder_route first rb p
      = (false, { rb with next_needed := p.count + 1 }, [p]) := by
    rcases hc with hc | hc
    · rw [hc]
      simp [reorder_route]
    · simp [reorder_route, hc]
  have hdrain : ({ rb with next_needed := p.count + 1 } : ReorderBuf).drain
      ({ rb with next_needed := p.count + 1 } : ReorderBuf).queued.length
        = ({ rb with next_needed := p.count + 1 }, []) :=
    drain_none _ _ (by simpa using h2)
  simp only [reorder_step, hroute, hdrain]
  rfl

theorem step_stale (rb : ReorderBuf) (p : Payload) (idx : Nat)
    (hne : ¬ (p.count = rb.next_needed))
    (hlast : rb.free_idxs.getLast? = some idx)
    (hnd : alookup (ainsert rb.queued p.count idx) rb.next_needed = none) :
    reorder_step false rb p =
      (false, { rb with
        free_idxs := rb.free_idxs.dropLast
        queued := ainsert rb.queued p.count idx
        buf := rb.buf.set idx p }, []) := by
  have hroute : reorder_route false rb p = (false, { rb with
      free_idxs := rb.free_idxs.dropLast
      queued := ainsert rb.queued p.count idx
      buf := rb.buf.set idx p }, []) := by
    simp only [reorder_route, Bool.false_or]
    rw [if_neg (by simpa using hne)]
    rw [push_some rb p idx hlast]
  have hdrain := drain_none { rb with
      free_idxs := rb.free_idxs.dropLast
      queued := ainsert rb.queued p.count idx
      buf := rb.buf.set idx p } (ainsert rb.queued p.count idx).length (by simpa using hnd)
  simp only [reorder_step, hroute, hdrain]
  rfl


theorem range_getLast?_eq (n : Nat) : (List.range (n + 1)).getLast? = some n := by
  rw [List.range_succ]
  exact List.getLast?_concat _

theorem free_getLast :
    (List.range PACKET_REODER_BUF_SIZE).getLast? = some 16383 := by
  rw [show PACKET_REODER_BUF_SIZE = 16383 + 1 from by norm_num [PACKET_REODER_BUF_SIZE]]
  exact range_getLast?_eq 16383

theorem getLast?_mem_of_eq (l : List Nat) (a : Nat) (h : l.getLast? = some a) : a ∈ l := by
  have hne : l ≠ [] := by
    intro hnil
    rw [hnil] at h
    simp at h
  have hid : l.getLast hne = a := by
    rw [List.getLast?_eq_getLast l hne, Option.some_inj] at h
    exact h
  rw [← hid]
  exact List.getLast_mem hne

theorem reorder_run_cons2 (f : Bool) (rb : ReorderBuf) (p : Payload) (rest : List Payload)
    (f2 : Bool) (rb2 : ReorderBuf) (out : List Payload)
    (hstep : reorder_step f rb p = (f2, rb2, out)) :
    reorder_run f rb (p :: rest)
      = ((reorder_run f2 rb2 rest).1, (reorder_run f2 rb2 rest).2.1,
         out ++ (reorder_run f2 rb2 rest).2.2) := by
  rw [reorder_run_cons, hstep]

theorem reorder_run_append (xs ys : List Payload) : ∀ (f : Bool) (rb : ReorderBuf),
    reorder_run f rb (xs ++ ys)
      = ((reorder_run (reorder_run f rb xs).1 (reorder_run f rb xs).2.1 ys).1,
         (reorder_run (reorder_run f rb xs).1 (reorder_run f rb xs).2.1 ys).2.1,
         (reorder_run f rb xs).2.2
           ++ (reorder_run (reorder_run f rb xs).1 (reorder_run f rb xs).2.1 ys).2.2) := by
  induction xs with
  | nil => intro f rb; simp [reorder_run_nil]
  | cons p rest ih =>
    intro f rb
    show reorder_run f rb (p :: (rest ++ ys)) = _
    rw [reorder_run_cons, ih, reorder_run_cons]
    simp [List.append_assoc]

theorem step_pass2 (first : Bool) (buf : List Payload) (free : List Nat)
    (queued : List (Nat × Nat)) (needed : Nat) (p : Payload)
    (hc : first = true ∨ p.count = needed)
    (h2 : alookup queued (p.count + 1) = none) :
    reorder_step first ⟨buf, free, queued, needed⟩ p
      = (false, ⟨buf, free, queued, p.count + 1⟩, [p]) :=
  step_pass first ⟨buf, free, queued, needed⟩ p hc h2

theorem step_stale2 (buf : List Payload) (free : List Nat)
    (queued : List (Nat × Nat)) (needed : Nat) (p : Payload) (idx : Nat)
    (hne : ¬ (p.count = needed)) (hlast : free.getLast? = some idx)
    (hnd : alookup (ainsert queued p.count idx) needed = none) :
    reorder_step false ⟨buf, free, queued, needed⟩ p
      = (false, ⟨buf.set idx p, free.dropLast, ainsert queued p.count idx, needed⟩, []) :=
  step_stale ⟨buf, free, queued, needed⟩ p idx hne hlast hnd

set_option maxRecDepth 2000 in
theorem reorder_trace4 :
    reorder_run true ReorderBuf.new ([0, 1, 2, 1].map plOf)
      = (false,
         ⟨(List.replicate PACKET_REODER_BUF_SIZE Payload.default).set 16383 (plOf 1),
          (List.range PACKET_REODER_BUF_SIZE).dropLast, [(1, 16383)], 3⟩,
         [plOf 0, plOf 1, plOf 2]) := by
  have t0 : reorder_step true
      ⟨List.replicate PACKET_REODER_BUF_SIZE Payload.default,
       List.range PACKET_REODER_BUF_SIZE, [], 0⟩ (plOf 0)
      = (false,
         ⟨List.replicate PACKET_REODER_BUF_SIZE Payload.default,
          List.range PACKET_REODER_BUF_SIZE, [], 1⟩, [plOf 0]) :=
    step_pass2 true _ _ [] 0 (plOf 0) (Or.inl rfl) rfl
  have t1 : reorder_step false
      ⟨List.replicate PACKET_REODER_BUF_SIZE Payload.default,
       List.range PACKET_REODER_BUF_SIZE, [], 1⟩ (plOf 1)
      = (false,
         ⟨List.replicate PACKET_REODER_BUF_SIZE Payload.default,
          List.range PACKET_REODER_BUF_SIZE, [], 2⟩, [plOf 1]) :=
    step_pass2 false _ _ [] 1 (plOf 1) (Or.inr rfl) rfl
  have t2 : reorder_step false
      ⟨List.replicate PACKET_REODER_BUF_SIZE Payload.default,
       List.range PACKET_REODER_BUF_SIZE, [], 2⟩ (plOf 2)
      = (false,
         ⟨List.replicate PACKET_REODER_BUF_SIZE Payload.default,
          List.range PACKET_REODER_BUF_SIZE, [], 3⟩, [plOf 2]) :=
    step_pass2 false _ _ [] 2 (plOf 2) (Or.inr rfl) rfl
  have t3 : reorder_step false
      ⟨List.replicate PACKET_REODER_BUF_SIZE Payload.default,
       List.range PACKET_REODER_BUF_SIZE, [], 3⟩ (plOf 1)
      = (false,
         ⟨(List.replicate PACKET_REODER_BUF_SIZE Payload.default).set 16383 (plOf 1),
          (List.range PACKET_REODER_BUF_SIZE).dropLast, [(1, 16383)], 3⟩, []) :=
    step_stale2 _ _ [] 3 (plOf 1) 16383 (by decide) free_getLast rfl
  rw [ReorderBuf.new]
  show reorder_run true
      ⟨List.replicate PACKET_REODER_BUF_SIZE Payload.default,
       List.range PACKET_REODER_BUF_SIZE, [], 0⟩
      (plOf 0 :: plOf 1 :: plOf 2 :: plOf 1 :: []) = _
  rw [reorder_run_cons2 _ _ _ _ _ _ _ t0]
  rw [reorder_run_cons2 _ _ _ _ _ _ _ t1]
  rw [reorder_run_cons2 _ _ _ _ _ _ _ t2]
  rw [reorder_run_cons2 _ _ _ _ _ _ _ t3]
  rw [reorder_run_nil]
  rfl

set_option maxRecDepth 2000 in
theorem reorder_trace6 :
    reorder_run true ReorderBuf.new ([0, 1, 2, 1, 3, 4].map plOf)
      = (false,
         ⟨(List.replicate PACKET_REODER_BUF_SIZE Payload.default).set 16383 (plOf 1),
          (List.range PACKET_REODER_BUF_SIZE).dropLast, [(1, 16383)], 5⟩,
         [plOf 0, plOf 1, plOf 2, plOf 3, plOf 4]) := by
  have t4 : reorder_step false
      ⟨(List.replicate PACKET_REODER_BUF_SIZE Payload.default).set 16383 (plOf 1),
       (List.range PACKET_REODER_BUF_SIZE).dropLast, [(1, 16383)], 3⟩ (plOf 3)
      = (false,
         ⟨(List.replicate PACKET_REODER_BUF_SIZE Payload.default).set 16383 (plOf 1),
          (List.range PACKET_REODER_BUF_SIZE).dropLast, [(1, 16383)], 4⟩, [plOf 3]) :=
    step_pass2 false _ _ [(1, 16383)] 3 (plOf 3) (Or.inr rfl) rfl
  have t5 : reorder_step false
      ⟨(List.replicate PACKET_REODER_BUF_SIZE Payload.default).set 16383 (plOf 1),
       (List.range PACKET_REODER_BUF_SIZE).dropLast, [(1, 16383)], 4⟩ (plOf 4)
      = (false,
         ⟨(List.replicate PACKET_REODER_BUF_SIZE Payload.default).set 16383 (plOf 1),
          (List.range PACKET_REODER_BUF_SIZE).dropLast, [(1, 16383)], 5⟩, [plOf 4]) :=
    step_pass2 false _ _ [(1, 16383)] 4 (plOf 4) (Or.inr rfl) rfl
  have hsplit : ([0, 1, 2, 1, 3, 4].map plOf)
      = ([0, 1, 2, 1].map plOf) ++ ([3, 4].map plOf) := rfl
  rw [hsplit, reorder_run_append, reorder_trace4]
  rw [show ((false,
      (⟨(List.replicate PACKET_REODER_BUF_SIZE Payload.default).set 16383 (plOf 1),
        (List.range PACKET_REODER_BUF_SIZE).dropLast, [(1, 16383)], 3⟩ : ReorderBuf),
      [plOf 0, plOf 1, plOf 2]) : Bool × ReorderBuf × List Payload).2.1
    = (⟨(List.replicate PACKET_REODER_BUF_SIZE Payload.default).set 16383 (plOf 1),
        (List.range PACKET_REODER_BUF_SIZE).dropLast, [(1, 16383)], 3⟩ : ReorderBuf)
    from rfl]
  rw [show (([3, 4].map plOf) : List Payload) = plOf 3 :: plOf 4 :: [] from rfl]
  rw [reorder_run_cons2 _ _ _ _ _ _ _ t4]
  rw [reorder_run_cons2 _ _ _ _ _ _ _ t5]
  rw [reorder_run_nil]
  rfl

theorem claim4_counterexample :
    (reorder_emits ([0, 1, 2, 1].map plOf)).map Payload.count = [0, 1, 2]
    ∧ (reorder_run true ReorderBuf.new ([0, 1, 2, 1].map plOf)).2.1.queued
        = [(1, 16383)] := by
  constructor
  · show ((reorder_run true ReorderBuf.new ([0, 1, 2, 1].map plOf)).2.2).map Payload.count
        = [0, 1, 2]
    rw [reorder_trace4]
    rfl
  · rw [reorder_trace4]

theorem claim4_amended (rb : ReorderBuf) (p : Payload)
    (hWF : rb.WF) (hlt : p.count < rb.next_needed) (hfree : rb.free_idxs ≠ []) :
    (∀ q ∈ (reorder_step false rb p).2.2, p.count < q.count)
    ∧ (∃ idx, alookup ((reorder_step false rb p).2.1).queued p.count = some idx
        ∧ ((reorder_step false rb p).2.1).buf.getD idx Payload.default = p)
    ∧ (reorder_emits ([0, 1, 2, 1, 3, 4].map plOf)).map Payload.count
        = [0, 1, 2, 3, 4] := by
  obtain ⟨idx, hlast⟩ : ∃ i, rb.free_idxs.getLast? = some i := by
    cases hfi : rb.free_idxs.getLast? with
    | none =>
      exfalso
      cases hl : rb.free_idxs with
      | nil => exact hfree hl
      | cons a t =>
        rw [hl] at hfi
        simp at hfi
    | some i => exact ⟨i, rfl⟩
  have hne2 : ¬ (p.count = rb.next_needed) := by omega
  have hroute : reorder_route false rb p = (false, { rb with
      free_idxs := rb.free_idxs.dropLast
      queued := ainsert rb.queued p.count idx
      buf := rb.buf.set idx p }, []) := by
    simp only [reorder_route, Bool.false_or]
    rw [if_neg (by simpa using hne2)]
    rw [push_some rb p idx hlast]
  have hWFP := WF_push rb p idx hWF hlast
  have hstep : reorder_step false rb p
      = (false,
         (({ rb with
             free_idxs := rb.free_idxs.dropLast
             queued := ainsert rb.queued p.count idx
             buf := rb.buf.set idx p } : ReorderBuf).drain
           (ainsert rb.queued p.count idx).length).1,
         (({ rb with
             free_idxs := rb.free_idxs.dropLast
             queued := ainsert rb.queued p.count idx
             buf := rb.buf.set idx p } : ReorderBuf).drain
           (ainsert rb.queued p.count idx).length).2) := by
    simp only [reorder_step, hroute]
    rfl
  refine ⟨?_, ?_, ?_⟩
  · intro q hq
    rw [hstep] at hq
    have hq2 : q ∈ (({ rb with
        free_idxs := rb.free_idxs.dropLast
        queued := ainsert rb.queued p.count idx
        buf := rb.buf.set idx p } : ReorderBuf).drain
          (ainsert rb.queued p.count idx).length).2 := hq
    have hge : rb.next_needed ≤ q.count :=
      drain_count_ge (ainsert rb.queued p.count idx).length _ hWFP q hq2
    omega
  · refine ⟨idx, ?_, ?_⟩
    · rw [hstep]
      show alookup ((({ rb with
          free_idxs := rb.free_idxs.dropLast
          queued := ainsert rb.queued p.count idx
          buf := rb.buf.set idx p } : ReorderBuf).drain
            (ainsert rb.queued p.count idx).length).1).queued p.count = some idx
      rw [drain_alookup_lt (ainsert rb.queued p.count idx).length { rb with
          free_idxs := rb.free_idxs.dropLast
          queued := ainsert rb.queued p.count idx
          buf := rb.buf.set idx p } p.count hlt]
      show alookup (ainsert rb.queued p.count idx) p.count = some idx
      simp [ainsert, alookup]
    · rw [hstep]
      show ((({ rb with
          free_idxs := rb.free_idxs.dropLast
          queued := ainsert rb.queued p.count idx
          buf := rb.buf.set idx p } : ReorderBuf).drain
            (ainsert rb.queued p.count idx).length).1).buf.getD idx Payload.default = p
      rw [drain_buf]
      show (rb.buf.set idx p).getD idx Payload.default = p
      exact getD_set_eq Payload.default p rb.buf idx
        (hWF.2.1 idx (getLast?_mem_of_eq rb.free_idxs idx hlast))
  · show ((reorder_run true ReorderBuf.new ([0, 1, 2, 1, 3, 4].map plOf)).2.2).map
        Payload.count = [0, 1, 2, 3, 4]
    rw [reorder_trace6]
    rfl

theorem staleProbe_free : staleProbe.free_idxs = List.range PACKET_REODER_BUF_SIZE := by
  rw [staleProbe]

theorem staleProbe_WF : staleProbe.WF := by
  have hq : staleProbe.queued = [] := by rw [staleProbe]
  have hb : staleProbe.buf.length = PACKET_REODER_BUF_SIZE := by
    rw [staleProbe]
    exact List.length_replicate _ _
  refine ⟨?_, ?_, ?_, ?_⟩
  · intro e he
    rw [hq] at he
    simp at he
  · intro i hi
    rw [staleProbe_free] at hi
    rw [hb]
    exact List.mem_range.mp hi
  · rw [hq]
    simp
  · rw [staleProbe_free]
    exact List.nodup_range _

theorem claim4_witness :
    (∀ q ∈ (reorder_step false staleProbe (plOf 1)).2.2, (plOf 1).count < q.count)
    ∧ (∃ idx, alookup ((reorder_step false staleProbe (plOf 1)).2.1).queued (plOf 1).count
          = some idx
        ∧ ((reorder_step false staleProbe (plOf 1)).2.1).buf.getD idx Payload.default
          = plOf 1)
    ∧ (reorder_emits ([0, 1, 2, 1, 3, 4].map plOf)).map Payload.count
        = [0, 1, 2, 3, 4] :=
  claim4_amended staleProbe (plOf 1) staleProbe_WF (by decide)
    (by rw [staleProbe_free]
        simp [PACKET_REODER_BUF_SIZE])

/-- Helper: encoding a byte after decoding it as i8 round-trips. -/
theorem toU8_toI8 (b : Nat) (hb : b < 256) : toU8 (toI8 b) = b := by
  unfold toU8 toI8
  split <;> omega

/-- Helper: a data byte of the encoding of a decoded buffer is the re-encoded
i8 read from the same wire position. -/
theorem encode_data_byte (B : Nat → Nat) (q c : Nat) (hq : q < 1024) (hc : c < 8) :
    encodeByte (Payload.from_bytes B) (8 + 8 * q + c) = toU8 (toI8 (B (8 + 8 * q + c))) := by
  have e1 : (8 + 8 * q + c - 8) / 8 = q := by omega
  have e2 : (8 + 8 * q + c - 8) % 8 = c := by omega
  have hch : 2 * q + 1 < CHANNELS := by simp only [CHANNELS]; omega
  have hmod0 : (2 * q) % 2 = 0 := Nat.mul_mod_right 2 q
  have hdiv0 : (2 * q) / 2 = q := by omega
  have hmod1 : (2 * q + 1) % 2 = 1 := by omega
  have hdiv1 : (2 * q + 1) / 2 = q := by omega
  rw [encodeByte, if_neg (by omega : ¬ (8 + 8 * q + c < 8))]
  simp only [e1, e2, dif_pos hch, Payload.from_bytes, Fin.val_mk]
  interval_cases c <;>
    simp [hmod0, hdiv0, hmod1, hdiv1]

/-- Helper: a timestamp byte of the encoding of a decoded buffer recovers the
original big-endian digit. -/
theorem encode_count_byte (B : Nat → Nat) (i : Nat) (hi : i < 8)
    (hB : ∀ j, j < 8 → B j < 256) :
    encodeByte (Payload.from_bytes B) i = B i := by
  rw [encodeByte, if_pos hi]
  show beCount B / 256 ^ (7 - i) % 256 = B i
  unfold beCount
  have h0 := hB 0 (by norm_num)
  have h1 := hB 1 (by norm_num)
  have h2 := hB 2 (by norm_num)
  have h3 := hB 3 (by norm_num)
  have h4 := hB 4 (by norm_num)
  have h5 := hB 5 (by norm_num)
  have h6 := hB 6 (by norm_num)
  have h7 := hB 7 (by norm_num)
  interval_cases i <;> norm_num <;> omega

/-- Claim C8: for every byte sequence of length PAYLOAD_SIZE (8200 bytes, each
byte below 256), decoding with `Payload::from_bytes` and re-encoding with the
inverse word-pack reproduces the original bytes bit-for-bit. -/
theorem claim8_roundtrip (B : Nat → Nat)
    (hB : ∀ i, i < PAYLOAD_SIZE → B i < 256) :
    encode (Payload.from_bytes B) = (List.range PAYLOAD_SIZE).map B := by
  have hPS : PAYLOAD_SIZE = 8200 := rfl
  unfold encode
  apply List.map_congr_left
  intro i hi
  rw [List.mem_range, hPS] at hi
  by_cases h8 : i < 8
  · exact encode_count_byte B i h8 (fun j hj => hB j (by omega))
  · have hq : (i - 8) / 8 < 1024 := by omega
    have hc : (i - 8) % 8 < 8 := by omega
    have key : i = 8 + 8 * ((i - 8) / 8) + (i - 8) % 8 := by omega
    rw [key, encode_data_byte B _ _ hq hc]
    exact toU8_toI8 _ (hB _ (by rw [hPS]; omega))

/-- Witness for claim C8 on the buffer whose byte at position i is i mod 256. -/
theorem claim8_witness :
    encode (Payload.from_bytes (fun i => i % 256))
      = (List.range PAYLOAD_SIZE).map (fun i => i % 256) :=
  claim8_roundtrip (fun i => i % 256) (fun i _ => Nat.mod_lt i (by norm_num))

end GrexT0
